import Mathlib

/-!
Verification of the ARPatcherData escape transform and patch codec.

The definitions in this file are shallow embeddings of the two headers
of the repository:

* src/Escape.hpp : the reversible escape transform that removes a
  forbidden byte from a byte stream, and the selection of the escape
  alphabet from byte frequencies.
* src/PatchData.hpp : the DataChunk and PatchData model and the
  textual/binary patch file codec (writeChunks / readChunks).

Bytes are modelled as natural numbers; the C++ std::uint8_t values are
always below 256, which appears as a hypothesis where needed.
std::size_t is 64 bits wide; SIZE_MAX below is its largest value.
-/

/-- Largest value of std::size_t (64-bit). -/
def SIZE_MAX : Nat := 2 ^ 64 - 1

/-- Embedding of struct EscapeData from src/Escape.hpp.  The four byte
fields are modelled as naturals (uint8 in the source), the size estimate
as a natural (size_t in the source). -/
structure EscapeData where
  toBeEscaped : Nat
  substituteCharacter : Nat
  escape : Nat
  escape2 : Nat
  estimatedNewSize : Nat
deriving DecidableEq, Repr

/-- EscapeData::recalculateEstimatedNewSize: source length plus the
occurrence counts of substituteCharacter and escape in the source. -/
def recalculateEstimatedNewSize (e : EscapeData) (newSource : List Nat) : Nat :=
  newSource.length + newSource.count e.substituteCharacter + newSource.count e.escape

/-- The scanning loop of std::min_element: walk the remaining elements
keeping the index and value of the current best, replacing it only on a
strictly smaller element. -/
def minIdxAux : List Nat → Nat → Nat → Nat → Nat
  | [], _, bi, _ => bi
  | x :: xs, i, bi, bv =>
    if x < bv then minIdxAux xs (i + 1) i x else minIdxAux xs (i + 1) bi bv

/-- Embedding of std::min_element over a list of naturals: the index of
the first occurrence of the minimum value (the scan replaces the current
best only on strictly smaller elements, so it returns an iterator to the
first smallest element).  For the empty list it returns 0, matching
end-of-range arithmetic never used by the program. -/
def minIdx : List Nat → Nat
  | [] => 0
  | x :: xs => minIdxAux xs 1 0 x

/-- The frequency table built by the counting loop of findBestEscape:
entry b holds the number of occurrences of byte b in the source. -/
def byteFreqs (source : List Nat) : List Nat :=
  (List.range 256).map (fun b => source.count b)

/-- The frequency table after findBestEscape masks the count of
toBeEscaped to the largest size_t value. -/
def maskedFreqs (source : List Nat) (toBeEscaped : Nat) : List Nat :=
  (byteFreqs source).set toBeEscaped SIZE_MAX

/-- The table after the first chosen byte (min) is masked as well. -/
def maskedFreqs2 (source : List Nat) (toBeEscaped : Nat) : List Nat :=
  (maskedFreqs source toBeEscaped).set (minIdx (maskedFreqs source toBeEscaped)) SIZE_MAX

/-- The table after the second chosen byte is masked as well. -/
def maskedFreqs3 (source : List Nat) (toBeEscaped : Nat) : List Nat :=
  (maskedFreqs2 source toBeEscaped).set (minIdx (maskedFreqs2 source toBeEscaped)) SIZE_MAX

/-- Embedding of findBestEscape from src/Escape.hpp: count byte
frequencies, mask toBeEscaped to the maximal size_t value, then pick the
three first-minimum indices, masking each chosen index before the next
pick; finally recompute the size estimate over the source. -/
def findBestEscape (source : List Nat) (toBeEscaped : Nat) : EscapeData :=
  { toBeEscaped := toBeEscaped
    substituteCharacter := minIdx (maskedFreqs source toBeEscaped)
    escape := minIdx (maskedFreqs2 source toBeEscaped)
    escape2 := minIdx (maskedFreqs3 source toBeEscaped)
    estimatedNewSize :=
      source.length + source.count (minIdx (maskedFreqs source toBeEscaped))
        + source.count (minIdx (maskedFreqs2 source toBeEscaped)) }

/-- Embedding of escape from src/Escape.hpp: per input byte, toBeEscaped
becomes substituteCharacter; substituteCharacter becomes the pair
escape, escape2; any other byte is copied, and the escape byte itself is
doubled. -/
def escapeBytes (source : List Nat) (e : EscapeData) : List Nat :=
  match source with
  | [] => []
  | b :: rest =>
    (if b = e.toBeEscaped then [e.substituteCharacter]
     else if b = e.substituteCharacter then [e.escape, e.escape2]
     else if b = e.escape then [b, e.escape]
     else [b]) ++ escapeBytes rest e

/-- The scanning loop of unescape from src/Escape.hpp with its one-bit
escape-pending flag made explicit.  When the flag is set and the byte is
neither escape nor escape2, the source clears the flag and emits
nothing (it has no failure path). -/
def unescapeAux (e : EscapeData) : List Nat → Bool → List Nat
  | [], _ => []
  | b :: rest, true =>
    (if b = e.escape then [e.escape]
     else if b = e.escape2 then [e.substituteCharacter]
     else []) ++ unescapeAux e rest false
  | b :: rest, false =>
    if b = e.escape then unescapeAux e rest true
    else if b = e.substituteCharacter then e.toBeEscaped :: unescapeAux e rest false
    else b :: unescapeAux e rest false

/-- Embedding of unescape from src/Escape.hpp: scan with the
escape-pending flag initially clear. -/
def unescapeBytes (escaped : List Nat) (e : EscapeData) : List Nat :=
  unescapeAux e escaped false

/-!  Properties of the min_element scan. -/

/-- Non-accumulating characterisation of the min_element scan, used only
for reasoning; minIdx is proved equal to it below. -/
def minIdxRec : List Nat → Nat
  | [] => 0
  | x :: xs =>
    if xs.getD (minIdxRec xs) 0 < x ∧ xs ≠ [] then minIdxRec xs + 1 else 0

lemma minIdxAux_eq (xs : List Nat) : ∀ i bi x,
    minIdxAux xs (i + 1) bi x =
      if xs.getD (minIdxRec xs) 0 < x ∧ xs ≠ [] then i + 1 + minIdxRec xs else bi := by
  induction xs with
  | nil => intro i bi x; simp [minIdxAux, minIdxRec]
  | cons y ys ih =>
    intro i bi x
    rw [minIdxAux]
    by_cases hyx : y < x
    · rw [if_pos hyx]
      have h2 := ih (i + 1) (i + 1) y
      rw [h2]
      by_cases hc : ys.getD (minIdxRec ys) 0 < y ∧ ys ≠ []
      · rw [if_pos hc]
        rw [minIdxRec, if_pos hc]
        have hcond : (y :: ys).getD (minIdxRec ys + 1) 0 < x ∧ y :: ys ≠ [] := by
          rw [List.getD_cons_succ]
          exact ⟨lt_trans hc.1 hyx, by simp⟩
        rw [if_pos hcond]
        omega
      · rw [if_neg hc]
        rw [minIdxRec, if_neg hc]
        have hcond : (y :: ys).getD 0 0 < x ∧ y :: ys ≠ [] := by
          rw [List.getD_cons_zero]
          exact ⟨hyx, by simp⟩
        rw [if_pos hcond]
    · rw [if_neg hyx]
      have h2 := ih (i + 1) bi x
      rw [h2]
      by_cases hc : ys.getD (minIdxRec ys) 0 < y ∧ ys ≠ []
      · rw [minIdxRec, if_pos hc]
        by_cases hx : ys.getD (minIdxRec ys) 0 < x
        · have hcond : (y :: ys).getD (minIdxRec ys + 1) 0 < x ∧ y :: ys ≠ [] := by
            rw [List.getD_cons_succ]
            exact ⟨hx, by simp⟩
          rw [if_pos ⟨hx, hc.2⟩, if_pos hcond]
          omega
        · have hcond : ¬ ((y :: ys).getD (minIdxRec ys + 1) 0 < x ∧ y :: ys ≠ []) := by
            rw [List.getD_cons_succ]
            exact fun h => hx h.1
          rw [if_neg (fun h => hx h.1), if_neg hcond]
      · rw [minIdxRec, if_neg hc]
        have hLHS : ¬ (ys.getD (minIdxRec ys) 0 < x ∧ ys ≠ []) := by
          intro h
          exact hc ⟨lt_of_lt_of_le h.1 (not_lt.mp hyx), h.2⟩
        have hRHS : ¬ ((y :: ys).getD 0 0 < x ∧ y :: ys ≠ []) := by
          rw [List.getD_cons_zero]
          exact fun h => hyx h.1
        rw [if_neg hLHS, if_neg hRHS]

lemma minIdx_eq_minIdxRec (l : List Nat) : minIdx l = minIdxRec l := by
  cases l with
  | nil => rfl
  | cons x xs =>
    show minIdxAux xs 1 0 x = _
    have h := minIdxAux_eq xs 0 0 x
    simp only [Nat.zero_add] at h
    rw [h, minIdxRec]
    split <;> omega

lemma minIdxRec_lt_length : ∀ l : List Nat, l ≠ [] → minIdxRec l < l.length := by
  intro l
  induction l with
  | nil => simp
  | cons x xs ih =>
    intro _
    rw [minIdxRec]
    split
    · next hc =>
      have := ih hc.2
      simpa using Nat.succ_lt_succ this
    · simp

lemma minIdxRec_le : ∀ (l : List Nat) (j : Nat), j < l.length →
    l.getD (minIdxRec l) 0 ≤ l.getD j 0 := by
  intro l
  induction l with
  | nil => simp
  | cons x xs ih =>
    intro j hj
    rw [minIdxRec]
    by_cases hc : xs.getD (minIdxRec xs) 0 < x ∧ xs ≠ []
    · rw [if_pos hc, List.getD_cons_succ]
      cases j with
      | zero => rw [List.getD_cons_zero]; exact le_of_lt hc.1
      | succ j =>
        rw [List.getD_cons_succ]
        exact ih j (by simpa using hj)
    · rw [if_neg hc, List.getD_cons_zero]
      cases j with
      | zero => rw [List.getD_cons_zero]
      | succ j =>
        rw [List.getD_cons_succ]
        cases xs with
        | nil => simp at hj
        | cons y ys =>
          have hle : ¬ (y :: ys).getD (minIdxRec (y :: ys)) 0 < x := by
            intro h
            exact hc ⟨h, by simp⟩
          exact le_trans (not_lt.mp hle) (ih j (by simpa using hj))

lemma minIdxRec_tiebreak : ∀ (l : List Nat) (j : Nat), j < minIdxRec l →
    l.getD (minIdxRec l) 0 < l.getD j 0 := by
  intro l
  induction l with
  | nil => simp [minIdxRec]
  | cons x xs ih =>
    intro j hj
    rw [minIdxRec] at hj ⊢
    by_cases hc : xs.getD (minIdxRec xs) 0 < x ∧ xs ≠ []
    · rw [if_pos hc] at hj ⊢
      rw [List.getD_cons_succ]
      cases j with
      | zero => rw [List.getD_cons_zero]; exact hc.1
      | succ j =>
        rw [List.getD_cons_succ]
        exact ih j (by omega)
    · rw [if_neg hc] at hj
      omega

lemma minIdx_lt_length (l : List Nat) (h : l ≠ []) : minIdx l < l.length := by
  rw [minIdx_eq_minIdxRec]; exact minIdxRec_lt_length l h

lemma minIdx_le (l : List Nat) (j : Nat) (hj : j < l.length) :
    l.getD (minIdx l) 0 ≤ l.getD j 0 := by
  rw [minIdx_eq_minIdxRec]; exact minIdxRec_le l j hj

lemma minIdx_tiebreak (l : List Nat) (j : Nat) (hj : j < minIdx l) :
    l.getD (minIdx l) 0 < l.getD j 0 := by
  rw [minIdx_eq_minIdxRec] at hj ⊢; exact minIdxRec_tiebreak l j hj

/-!  The masked frequency tables of findBestEscape. -/

lemma byteFreqs_length (x : List Nat) : (byteFreqs x).length = 256 := by
  simp [byteFreqs]

lemma maskedFreqs_length (x : List Nat) (t : Nat) : (maskedFreqs x t).length = 256 := by
  simp [maskedFreqs, byteFreqs_length]

lemma maskedFreqs2_length (x : List Nat) (t : Nat) : (maskedFreqs2 x t).length = 256 := by
  simp [maskedFreqs2, maskedFreqs_length]

lemma maskedFreqs3_length (x : List Nat) (t : Nat) : (maskedFreqs3 x t).length = 256 := by
  simp [maskedFreqs3, maskedFreqs2_length]

lemma byteFreqs_getD (x : List Nat) (j : Nat) (hj : j < 256) :
    (byteFreqs x).getD j 0 = x.count j := by
  rw [List.getD_eq_getElem?_getD, byteFreqs, List.getElem?_map, List.getElem?_range hj]
  rfl

lemma getD_set_self (l : List Nat) (i v : Nat) (hi : i < l.length) :
    (l.set i v).getD i 0 = v := by
  rw [List.getD_eq_getElem?_getD, List.getElem?_set_eq_of_lt v hi]
  rfl

lemma getD_set_ne (l : List Nat) (i j v : Nat) (h : i ≠ j) :
    (l.set i v).getD j 0 = l.getD j 0 := by
  rw [List.getD_eq_getElem?_getD, List.getElem?_set_ne h, ← List.getD_eq_getElem?_getD]

lemma maskedFreqs_getD_self (x : List Nat) (t : Nat) (ht : t < 256) :
    (maskedFreqs x t).getD t 0 = SIZE_MAX := by
  rw [maskedFreqs]
  exact getD_set_self _ _ _ (by rw [byteFreqs_length]; exact ht)

lemma maskedFreqs_getD_ne (x : List Nat) (t j : Nat) (h : t ≠ j) (hj : j < 256) :
    (maskedFreqs x t).getD j 0 = x.count j := by
  rw [maskedFreqs, getD_set_ne _ _ _ _ h, byteFreqs_getD x j hj]

lemma count_lt_SIZE_MAX (x : List Nat) (hx : x.length < SIZE_MAX) (b : Nat) :
    x.count b < SIZE_MAX :=
  lt_of_le_of_lt (List.count_le_length b x) hx

lemma minIdx_ne_of_masked (l : List Nat) (k : Nat)
    (hk : l.getD k 0 = SIZE_MAX) (hmin : l.getD (minIdx l) 0 < SIZE_MAX) :
    minIdx l ≠ k := by
  intro he
  rw [he, hk] at hmin
  exact lt_irrefl _ hmin

lemma exists_fresh3 (a b c : Nat) : ∃ j, j < 256 ∧ j ≠ a ∧ j ≠ b ∧ j ≠ c := by
  by_cases h0 : 0 = a ∨ 0 = b ∨ 0 = c
  · by_cases h1 : 1 = a ∨ 1 = b ∨ 1 = c
    · by_cases h2 : 2 = a ∨ 2 = b ∨ 2 = c
      · exact ⟨3, by omega⟩
      · exact ⟨2, by omega⟩
    · exact ⟨1, by omega⟩
  · exact ⟨0, by omega⟩

/-- Bundled facts about the three chosen indices of findBestEscape: all
below 256, all distinct from toBeEscaped and from each other, and the
values at the chosen indices are below the mask. -/
lemma findBestEscape_distinct (x : List Nat) (t : Nat) (ht : t < 256)
    (hx : x.length < SIZE_MAX) :
    minIdx (maskedFreqs x t) < 256 ∧ minIdx (maskedFreqs2 x t) < 256 ∧
    minIdx (maskedFreqs3 x t) < 256 ∧
    minIdx (maskedFreqs x t) ≠ t ∧ minIdx (maskedFreqs2 x t) ≠ t ∧
    minIdx (maskedFreqs3 x t) ≠ t ∧
    minIdx (maskedFreqs2 x t) ≠ minIdx (maskedFreqs x t) ∧
    minIdx (maskedFreqs3 x t) ≠ minIdx (maskedFreqs x t) ∧
    minIdx (maskedFreqs3 x t) ≠ minIdx (maskedFreqs2 x t) := by
  have hlen1 := maskedFreqs_length x t
  have hlen2 := maskedFreqs2_length x t
  have hlen3 := maskedFreqs3_length x t
  have hne1 : maskedFreqs x t ≠ [] := by
    intro h; rw [h] at hlen1; simp at hlen1
  have hne2 : maskedFreqs2 x t ≠ [] := by
    intro h; rw [h] at hlen2; simp at hlen2
  have hne3 : maskedFreqs3 x t ≠ [] := by
    intro h; rw [h] at hlen3; simp at hlen3
  have hm1lt : minIdx (maskedFreqs x t) < 256 := hlen1 ▸ minIdx_lt_length _ hne1
  have hm2lt : minIdx (maskedFreqs2 x t) < 256 := hlen2 ▸ minIdx_lt_length _ hne2
  have hm3lt : minIdx (maskedFreqs3 x t) < 256 := hlen3 ▸ minIdx_lt_length _ hne3
  -- the value at the first chosen index is below the mask
  obtain ⟨j1, hj1, hj1t, _, _⟩ := exists_fresh3 t t t
  have hv1 : (maskedFreqs x t).getD (minIdx (maskedFreqs x t)) 0 < SIZE_MAX := by
    refine lt_of_le_of_lt (minIdx_le _ j1 (by omega)) ?_
    rw [maskedFreqs_getD_ne x t j1 (fun h => hj1t h.symm) hj1]
    exact count_lt_SIZE_MAX x hx j1
  have hmask1t := maskedFreqs_getD_self x t ht
  have hm1t : minIdx (maskedFreqs x t) ≠ t := minIdx_ne_of_masked _ t hmask1t hv1
  -- second table: masked at t and at the first index
  have hmask2t : (maskedFreqs2 x t).getD t 0 = SIZE_MAX := by
    rw [maskedFreqs2, getD_set_ne _ _ _ _ hm1t, hmask1t]
  have hmask2m : (maskedFreqs2 x t).getD (minIdx (maskedFreqs x t)) 0 = SIZE_MAX := by
    rw [maskedFreqs2]
    exact getD_set_self _ _ _ (by omega)
  obtain ⟨j2, hj2, hj2t, hj2m, _⟩ := exists_fresh3 t (minIdx (maskedFreqs x t)) t
  have hv2 : (maskedFreqs2 x t).getD (minIdx (maskedFreqs2 x t)) 0 < SIZE_MAX := by
    refine lt_of_le_of_lt (minIdx_le _ j2 (by omega)) ?_
    rw [maskedFreqs2, getD_set_ne _ _ _ _ (fun h => hj2m h.symm),
      maskedFreqs_getD_ne x t j2 (fun h => hj2t h.symm) hj2]
    exact count_lt_SIZE_MAX x hx j2
  have hm2t : minIdx (maskedFreqs2 x t) ≠ t := minIdx_ne_of_masked _ t hmask2t hv2
  have hm2m : minIdx (maskedFreqs2 x t) ≠ minIdx (maskedFreqs x t) :=
    minIdx_ne_of_masked _ _ hmask2m hv2
  -- third table: masked at t and at the first two indices
  have hmask3t : (maskedFreqs3 x t).getD t 0 = SIZE_MAX := by
    rw [maskedFreqs3, getD_set_ne _ _ _ _ hm2t, hmask2t]
  have hmask3m : (maskedFreqs3 x t).getD (minIdx (maskedFreqs x t)) 0 = SIZE_MAX := by
    rw [maskedFreqs3, getD_set_ne _ _ _ _ hm2m, hmask2m]
  have hmask3s : (maskedFreqs3 x t).getD (minIdx (maskedFreqs2 x t)) 0 = SIZE_MAX := by
    rw [maskedFreqs3]
    exact getD_set_self _ _ _ (by omega)
  obtain ⟨j3, hj3, hj3t, hj3m, hj3s⟩ :=
    exists_fresh3 t (minIdx (maskedFreqs x t)) (minIdx (maskedFreqs2 x t))
  have hv3 : (maskedFreqs3 x t).getD (minIdx (maskedFreqs3 x t)) 0 < SIZE_MAX := by
    refine lt_of_le_of_lt (minIdx_le _ j3 (by omega)) ?_
    rw [maskedFreqs3, getD_set_ne _ _ _ _ (fun h => hj3s h.symm),
      maskedFreqs2, getD_set_ne _ _ _ _ (fun h => hj3m h.symm),
      maskedFreqs_getD_ne x t j3 (fun h => hj3t h.symm) hj3]
    exact count_lt_SIZE_MAX x hx j3
  have hm3t : minIdx (maskedFreqs3 x t) ≠ t := minIdx_ne_of_masked _ t hmask3t hv3
  have hm3m : minIdx (maskedFreqs3 x t) ≠ minIdx (maskedFreqs x t) :=
    minIdx_ne_of_masked _ _ hmask3m hv3
  have hm3s : minIdx (maskedFreqs3 x t) ≠ minIdx (maskedFreqs2 x t) :=
    minIdx_ne_of_masked _ _ hmask3s hv3
  exact ⟨hm1lt, hm2lt, hm3lt, hm1t, hm2t, hm3t, hm2m, hm3m, hm3s⟩

/-!  Behaviour of escape and unescape under distinctness of the
parameter bytes. -/

lemma unescapeAux_cons_false (e : EscapeData) (b : Nat) (rest : List Nat) :
    unescapeAux e (b :: rest) false =
      if b = e.escape then unescapeAux e rest true
      else if b = e.substituteCharacter then e.toBeEscaped :: unescapeAux e rest false
      else b :: unescapeAux e rest false := rfl

lemma unescapeAux_cons_true (e : EscapeData) (b : Nat) (rest : List Nat) :
    unescapeAux e (b :: rest) true =
      (if b = e.escape then [e.escape]
       else if b = e.escape2 then [e.substituteCharacter]
       else []) ++ unescapeAux e rest false := rfl

lemma unescape_escape (e : EscapeData) (hse : e.substituteCharacter ≠ e.escape)
    (hee2 : e.escape ≠ e.escape2) (x : List Nat) :
    unescapeBytes (escapeBytes x e) e = x := by
  rw [unescapeBytes]
  induction x with
  | nil => rfl
  | cons b rest ih =>
    rw [escapeBytes]
    by_cases h1 : b = e.toBeEscaped
    · rw [if_pos h1, List.singleton_append, unescapeAux_cons_false,
        if_neg hse, if_pos rfl, ih, h1]
    · rw [if_neg h1]
      by_cases h2 : b = e.substituteCharacter
      · rw [if_pos h2, List.cons_append, List.singleton_append,
          unescapeAux_cons_false, if_pos rfl, unescapeAux_cons_true,
          if_neg (fun h => hee2 h.symm), if_pos rfl, List.singleton_append, ih, h2]
      · rw [if_neg h2]
        by_cases h3 : b = e.escape
        · rw [if_pos h3, List.cons_append, List.singleton_append,
            unescapeAux_cons_false, if_pos h3, unescapeAux_cons_true,
            if_pos rfl, List.singleton_append, ih, h3]
        · rw [if_neg h3, List.singleton_append, unescapeAux_cons_false,
            if_neg h3, if_neg h2, ih]

lemma escape_length (e : EscapeData) (hts : e.toBeEscaped ≠ e.substituteCharacter)
    (hte : e.toBeEscaped ≠ e.escape) (hse : e.substituteCharacter ≠ e.escape)
    (x : List Nat) :
    (escapeBytes x e).length = x.length + x.count e.substituteCharacter + x.count e.escape := by
  induction x with
  | nil => rfl
  | cons b rest ih =>
    rw [escapeBytes, List.length_append, ih, List.length_cons,
      List.count_cons, List.count_cons]
    simp only [beq_iff_eq]
    by_cases h1 : b = e.toBeEscaped
    · have hbs : ¬ b = e.substituteCharacter := by rw [h1]; exact hts
      have hbe : ¬ b = e.escape := by rw [h1]; exact hte
      rw [if_pos h1, if_neg hbs, if_neg hbe]
      simp only [List.length_cons, List.length_nil]
      omega
    · rw [if_neg h1]
      by_cases h2 : b = e.substituteCharacter
      · have hbe : ¬ b = e.escape := by rw [h2]; exact hse
        rw [if_pos h2, if_pos h2, if_neg hbe]
        simp only [List.length_cons, List.length_nil]
        omega
      · rw [if_neg h2, if_neg h2]
        by_cases h3 : b = e.escape
        · rw [if_pos h3, if_pos h3]
          simp only [List.length_cons, List.length_nil]
          omega
        · rw [if_neg h3, if_neg h3]
          simp only [List.length_cons, List.length_nil]
          omega

lemma escape_not_mem (e : EscapeData) (hts : e.toBeEscaped ≠ e.substituteCharacter)
    (hte : e.toBeEscaped ≠ e.escape) (hte2 : e.toBeEscaped ≠ e.escape2)
    (x : List Nat) : e.toBeEscaped ∉ escapeBytes x e := by
  induction x with
  | nil => simp [escapeBytes]
  | cons b rest ih =>
    rw [escapeBytes]
    intro hmem
    rw [List.mem_append] at hmem
    rcases hmem with h | h
    · by_cases h1 : b = e.toBeEscaped
      · rw [if_pos h1] at h
        rw [List.mem_singleton] at h
        exact hts h
      · rw [if_neg h1] at h
        by_cases h2 : b = e.substituteCharacter
        · rw [if_pos h2] at h
          rcases List.mem_cons.mp h with h | h
          · exact hte h
          · exact hte2 (List.mem_singleton.mp h)
        · rw [if_neg h2] at h
          by_cases h3 : b = e.escape
          · rw [if_pos h3] at h
            rcases List.mem_cons.mp h with h | h
            · exact h1 h.symm
            · exact hte (List.mem_singleton.mp h)
          · rw [if_neg h3] at h
            exact h1 (List.mem_singleton.mp h).symm
    · exact ih h

/-- Well-formedness of an escaped stream from the decoder's point of
view: every occurrence of the escape byte is immediately followed by
escape or escape2 (the pair being consumed together), and the stream
does not end on a dangling escape byte. -/
def escWellFormed (e : EscapeData) : List Nat → Bool
  | [] => true
  | [b] => if b = e.escape then false else true
  | b :: c :: rest =>
    if b = e.escape then
      if c = e.escape ∨ c = e.escape2 then escWellFormed e rest else false
    else escWellFormed e (c :: rest)

/-- The value of the decoder's escape-pending flag after scanning a
stream, mirroring the flag transitions of unescape. -/
def finalEscapeFlag (e : EscapeData) : List Nat → Bool → Bool
  | [], f => f
  | _ :: rest, true => finalEscapeFlag e rest false
  | b :: rest, false =>
    if b = e.escape then finalEscapeFlag e rest true
    else finalEscapeFlag e rest false

lemma escWellFormed_cons_ne (e : EscapeData) (b : Nat) (l : List Nat)
    (hb : ¬ b = e.escape) : escWellFormed e (b :: l) = escWellFormed e l := by
  cases l with
  | nil => simp [escWellFormed, hb]
  | cons c rest => simp [escWellFormed, hb]

lemma escWellFormed_pair (e : EscapeData) (c : Nat) (l : List Nat)
    (hc : c = e.escape ∨ c = e.escape2) :
    escWellFormed e (e.escape :: c :: l) = escWellFormed e l := by
  simp [escWellFormed, hc]

lemma escWellFormed_escape (e : EscapeData) (hse : e.substituteCharacter ≠ e.escape)
    (x : List Nat) : escWellFormed e (escapeBytes x e) = true := by
  induction x with
  | nil => rfl
  | cons b rest ih =>
    rw [escapeBytes]
    by_cases h1 : b = e.toBeEscaped
    · rw [if_pos h1, List.singleton_append, escWellFormed_cons_ne e _ _ hse, ih]
    · rw [if_neg h1]
      by_cases h2 : b = e.substituteCharacter
      · rw [if_pos h2, List.cons_append, List.singleton_append,
          escWellFormed_pair e _ _ (Or.inr rfl), ih]
      · rw [if_neg h2]
        by_cases h3 : b = e.escape
        · rw [if_pos h3, List.cons_append, List.singleton_append, h3,
            escWellFormed_pair e _ _ (Or.inl rfl), ih]
        · rw [if_neg h3, List.singleton_append, escWellFormed_cons_ne e _ _ h3, ih]

lemma finalEscapeFlag_cons_false (e : EscapeData) (b : Nat) (rest : List Nat) :
    finalEscapeFlag e (b :: rest) false =
      if b = e.escape then finalEscapeFlag e rest true
      else finalEscapeFlag e rest false := rfl

lemma finalEscapeFlag_cons_true (e : EscapeData) (b : Nat) (rest : List Nat) :
    finalEscapeFlag e (b :: rest) true = finalEscapeFlag e rest false := rfl

lemma finalEscapeFlag_escape (e : EscapeData) (hse : e.substituteCharacter ≠ e.escape)
    (x : List Nat) : finalEscapeFlag e (escapeBytes x e) false = false := by
  induction x with
  | nil => rfl
  | cons b rest ih =>
    rw [escapeBytes]
    by_cases h1 : b = e.toBeEscaped
    · rw [if_pos h1, List.singleton_append, finalEscapeFlag_cons_false, if_neg hse, ih]
    · rw [if_neg h1]
      by_cases h2 : b = e.substituteCharacter
      · rw [if_pos h2, List.cons_append, List.singleton_append,
          finalEscapeFlag_cons_false, if_pos rfl, finalEscapeFlag_cons_true, ih]
      · rw [if_neg h2]
        by_cases h3 : b = e.escape
        · rw [if_pos h3, List.cons_append, List.singleton_append,
            finalEscapeFlag_cons_false, if_pos h3, finalEscapeFlag_cons_true, ih]
        · rw [if_neg h3, List.singleton_append, finalEscapeFlag_cons_false, if_neg h3, ih]

/-!  Claims about the escape transform. -/

/-- Claim C1: for every byte blob x and escape parameters chosen by
findBestEscape, decoding the encoded stream returns the original input:
unescape (escape x P) P = x.  The hypotheses state that toBeEscaped is a
byte and that the source fits in memory (its length is below the
largest size_t value used as the frequency mask), both guaranteed by
the C++ types. -/
theorem escape_roundtrip (x : List Nat) (t : Nat) (ht : t < 256)
    (hx : x.length < SIZE_MAX) :
    unescapeBytes (escapeBytes x (findBestEscape x t)) (findBestEscape x t) = x := by
  obtain ⟨-, -, -, -, -, -, h7, -, h9⟩ := findBestEscape_distinct x t ht hx
  exact unescape_escape (findBestEscape x t) (Ne.symm h7) (Ne.symm h9) x

/-- Witness for C1 at the concrete input of spec scenario S5. -/
theorem escape_roundtrip_witness :
    unescapeBytes (escapeBytes [0, 4, 5, 5, 4, 0] (findBestEscape [0, 4, 5, 5, 4, 0] 0))
      (findBestEscape [0, 4, 5, 5, 4, 0] 0) = [0, 4, 5, 5, 4, 0] :=
  escape_roundtrip [0, 4, 5, 5, 4, 0] 0 (by decide) (by decide)

/-- Claim C3: findBestEscape picks substituteCharacter, escape and
escape2 by repeated first-minimum selection over the byte frequency
table with toBeEscaped masked to the largest size_t value, masking each
chosen byte before the next pick; ties break toward the smallest byte
value (no strictly earlier index attains the minimum), and the four
resulting bytes are pairwise distinct. -/
theorem findBestEscape_selection (x : List Nat) (t : Nat) (ht : t < 256)
    (hx : x.length < SIZE_MAX) :
    ((maskedFreqs x t).getD t 0 = SIZE_MAX ∧
      ∀ j, j < 256 → j ≠ t → (maskedFreqs x t).getD j 0 = x.count j) ∧
    (∀ j, j < 256 →
      (maskedFreqs x t).getD ((findBestEscape x t).substituteCharacter) 0 ≤
        (maskedFreqs x t).getD j 0) ∧
    (∀ j, j < (findBestEscape x t).substituteCharacter →
      (maskedFreqs x t).getD ((findBestEscape x t).substituteCharacter) 0 <
        (maskedFreqs x t).getD j 0) ∧
    maskedFreqs2 x t =
      (maskedFreqs x t).set ((findBestEscape x t).substituteCharacter) SIZE_MAX ∧
    (∀ j, j < 256 →
      (maskedFreqs2 x t).getD ((findBestEscape x t).escape) 0 ≤
        (maskedFreqs2 x t).getD j 0) ∧
    (∀ j, j < (findBestEscape x t).escape →
      (maskedFreqs2 x t).getD ((findBestEscape x t).escape) 0 <
        (maskedFreqs2 x t).getD j 0) ∧
    maskedFreqs3 x t = (maskedFreqs2 x t).set ((findBestEscape x t).escape) SIZE_MAX ∧
    (∀ j, j < 256 →
      (maskedFreqs3 x t).getD ((findBestEscape x t).escape2) 0 ≤
        (maskedFreqs3 x t).getD j 0) ∧
    (∀ j, j < (findBestEscape x t).escape2 →
      (maskedFreqs3 x t).getD ((findBestEscape x t).escape2) 0 <
        (maskedFreqs3 x t).getD j 0) ∧
    ((findBestEscape x t).substituteCharacter ≠ t ∧
      (findBestEscape x t).escape ≠ t ∧
      (findBestEscape x t).escape2 ≠ t ∧
      (findBestEscape x t).substituteCharacter ≠ (findBestEscape x t).escape ∧
      (findBestEscape x t).substituteCharacter ≠ (findBestEscape x t).escape2 ∧
      (findBestEscape x t).escape ≠ (findBestEscape x t).escape2) := by
  obtain ⟨-, -, -, h4, h5, h6, h7, h8, h9⟩ := findBestEscape_distinct x t ht hx
  refine ⟨⟨maskedFreqs_getD_self x t ht,
      fun j hj hjt => maskedFreqs_getD_ne x t j (fun h => hjt h.symm) hj⟩,
    fun j hj => minIdx_le _ j (by rw [maskedFreqs_length]; exact hj),
    fun j hj => minIdx_tiebreak _ j hj,
    rfl,
    fun j hj => minIdx_le _ j (by rw [maskedFreqs2_length]; exact hj),
    fun j hj => minIdx_tiebreak _ j hj,
    rfl,
    fun j hj => minIdx_le _ j (by rw [maskedFreqs3_length]; exact hj),
    fun j hj => minIdx_tiebreak _ j hj,
    h4, h5, h6, Ne.symm h7, Ne.symm h8, Ne.symm h9⟩

/-- Witness for C3 at the concrete input of spec scenario S4: the
distinctness conjunct instantiated at that input. -/
theorem findBestEscape_selection_witness :
    (findBestEscape [0, 0, 1, 2, 2, 2, 2, 3, 3, 3, 3, 3] 0).substituteCharacter ≠ 0 ∧
    (findBestEscape [0, 0, 1, 2, 2, 2, 2, 3, 3, 3, 3, 3] 0).escape ≠ 0 ∧
    (findBestEscape [0, 0, 1, 2, 2, 2, 2, 3, 3, 3, 3, 3] 0).escape2 ≠ 0 ∧
    (findBestEscape [0, 0, 1, 2, 2, 2, 2, 3, 3, 3, 3, 3] 0).substituteCharacter ≠
      (findBestEscape [0, 0, 1, 2, 2, 2, 2, 3, 3, 3, 3, 3] 0).escape ∧
    (findBestEscape [0, 0, 1, 2, 2, 2, 2, 3, 3, 3, 3, 3] 0).substituteCharacter ≠
      (findBestEscape [0, 0, 1, 2, 2, 2, 2, 3, 3, 3, 3, 3] 0).escape2 ∧
    (findBestEscape [0, 0, 1, 2, 2, 2, 2, 3, 3, 3, 3, 3] 0).escape ≠
      (findBestEscape [0, 0, 1, 2, 2, 2, 2, 3, 3, 3, 3, 3] 0).escape2 :=
  (findBestEscape_selection [0, 0, 1, 2, 2, 2, 2, 3, 3, 3, 3, 3] 0
    (by decide) (by decide)).2.2.2.2.2.2.2.2.2

/-- Claim C4 counterexample: unescape has no failure path.  On a stream
where the escape-pending flag is set (first byte is the escape byte 5)
and the next byte 7 is neither escape 5 nor escape2 6, the decoder
returns normally (here the empty list, the invalid pair silently
dropped) instead of failing with an EscapeDecodeError. -/
theorem unescape_invalid_pair_no_failure :
    unescapeBytes [5, 7]
      { toBeEscaped := 0, substituteCharacter := 4, escape := 5, escape2 := 6,
        estimatedNewSize := 0 } = [] := by decide

/-- Claim C4 as amended: when the escape-pending flag is set and the
next byte is neither escape nor escape2, unescape silently drops the
pair (clears the flag, emits nothing) and continues with the rest of
the stream; it never fails. -/
theorem unescape_invalid_pair_skipped (e : EscapeData) (b : Nat) (rest : List Nat)
    (hb1 : b ≠ e.escape) (hb2 : b ≠ e.escape2) :
    unescapeAux e (b :: rest) true = unescapeAux e rest false := by
  rw [unescapeAux_cons_true, if_neg hb1, if_neg hb2, List.nil_append]

/-- Witness for the amended C4 at a concrete invalid pair. -/
theorem unescape_invalid_pair_skipped_witness :
    unescapeAux
      { toBeEscaped := 0, substituteCharacter := 4, escape := 5, escape2 := 6,
        estimatedNewSize := 0 } [7, 4] true =
    unescapeAux
      { toBeEscaped := 0, substituteCharacter := 4, escape := 5, escape2 := 6,
        estimatedNewSize := 0 } [4] false :=
  unescape_invalid_pair_skipped _ 7 [4] (by decide) (by decide)

/-- Claim C5: the escaped output has exactly the predicted length:
source length plus the source occurrence counts of substituteCharacter
and escape. -/
theorem escape_length_eq_estimate (x : List Nat) (t : Nat) (ht : t < 256)
    (hx : x.length < SIZE_MAX) :
    (escapeBytes x (findBestEscape x t)).length = (findBestEscape x t).estimatedNewSize ∧
    (findBestEscape x t).estimatedNewSize =
      x.length + x.count ((findBestEscape x t).substituteCharacter)
        + x.count ((findBestEscape x t).escape) := by
  obtain ⟨-, -, -, h4, h5, -, h7, -, -⟩ := findBestEscape_distinct x t ht hx
  exact ⟨escape_length _ (Ne.symm h4) (Ne.symm h5) (Ne.symm h7) x, rfl⟩

/-- Witness for C5 at the concrete input of spec scenario S5. -/
theorem escape_length_eq_estimate_witness :
    (escapeBytes [0, 4, 5, 5, 4, 0] (findBestEscape [0, 4, 5, 5, 4, 0] 0)).length =
      (findBestEscape [0, 4, 5, 5, 4, 0] 0).estimatedNewSize ∧
    (findBestEscape [0, 4, 5, 5, 4, 0] 0).estimatedNewSize =
      ([0, 4, 5, 5, 4, 0] : List Nat).length
        + List.count ((findBestEscape [0, 4, 5, 5, 4, 0] 0).substituteCharacter)
            [0, 4, 5, 5, 4, 0]
        + List.count ((findBestEscape [0, 4, 5, 5, 4, 0] 0).escape) [0, 4, 5, 5, 4, 0] :=
  escape_length_eq_estimate [0, 4, 5, 5, 4, 0] 0 (by decide) (by decide)

/-- Claim C6: the escaped output contains no occurrence of the
forbidden byte toBeEscaped. -/
theorem escape_no_forbidden_byte (x : List Nat) (t : Nat) (ht : t < 256)
    (hx : x.length < SIZE_MAX) :
    (findBestEscape x t).toBeEscaped ∉ escapeBytes x (findBestEscape x t) := by
  obtain ⟨-, -, -, h4, h5, h6, -, -, -⟩ := findBestEscape_distinct x t ht hx
  exact escape_not_mem _ (Ne.symm h4) (Ne.symm h5) (Ne.symm h6) x

/-- Witness for C6 at the concrete input of spec scenario S5. -/
theorem escape_no_forbidden_byte_witness :
    (findBestEscape [0, 4, 5, 5, 4, 0] 0).toBeEscaped ∉
      escapeBytes [0, 4, 5, 5, 4, 0] (findBestEscape [0, 4, 5, 5, 4, 0] 0) :=
  escape_no_forbidden_byte [0, 4, 5, 5, 4, 0] 0 (by decide) (by decide)

/-- Claim C10 (implicit): the encoder output is well formed for the
decoder: every occurrence of the escape byte is immediately followed by
escape or escape2, and scanning the whole output leaves the
escape-pending flag clear, so the decoder's dangling/invalid-escape
situation cannot arise on encoder output. -/
theorem escape_output_decoder_wellformed (x : List Nat) (t : Nat) (ht : t < 256)
    (hx : x.length < SIZE_MAX) :
    escWellFormed (findBestEscape x t) (escapeBytes x (findBestEscape x t)) = true ∧
    finalEscapeFlag (findBestEscape x t) (escapeBytes x (findBestEscape x t)) false = false := by
  obtain ⟨-, -, -, -, -, -, h7, -, -⟩ := findBestEscape_distinct x t ht hx
  exact ⟨escWellFormed_escape _ (Ne.symm h7) x, finalEscapeFlag_escape _ (Ne.symm h7) x⟩

/-- Witness for C10 at the concrete input of spec scenario S5. -/
theorem escape_output_decoder_wellformed_witness :
    escWellFormed (findBestEscape [0, 4, 5, 5, 4, 0] 0)
      (escapeBytes [0, 4, 5, 5, 4, 0] (findBestEscape [0, 4, 5, 5, 4, 0] 0)) = true ∧
    finalEscapeFlag (findBestEscape [0, 4, 5, 5, 4, 0] 0)
      (escapeBytes [0, 4, 5, 5, 4, 0] (findBestEscape [0, 4, 5, 5, 4, 0] 0)) false = false :=
  escape_output_decoder_wellformed [0, 4, 5, 5, 4, 0] 0 (by decide) (by decide)

/-!  Embedding of src/PatchData.hpp: chunk model and patch codec.
Byte streams are modelled as lists of naturals; the C++ istream/ostream
pair becomes a byte-list producer and a byte-list consumer with
explicit remainder, and every exception site becomes an error value. -/

/-- Error taxonomy of the codec and the chunk constructor, one value
per C++ exception site: invalid_argument for header, delimiter and
version mismatches; domain_error for an out-of-range escape byte;
length_error in the DataChunk constructor; and ios_base::failure
for stream failures (failed numeric extraction or short read or end of
input), thrown because badbit and failbit exceptions are enabled. -/
inductive PatchError where
  | malformedHeader
  | unsupportedVersion
  | domainError
  | lengthOverflow
  | streamFailure
deriving DecidableEq, Repr

/-- Embedding of struct DataChunk: length and sourcePosition are
uint32 fields, data is the inline payload buffer. -/
structure DataChunk where
  length : Nat
  sourcePosition : Nat
  data : List Nat
deriving DecidableEq, Repr

/-- The checked DataChunk constructor: rejects a length above 32 bits,
and a sourcePosition above 32 bits unless it is the size_t literal -1
(the sentinel); the stored fields are the arguments truncated to
32 bits by the static_cast. -/
def mkDataChunk (length sourcePosition : Nat) (data : List Nat) :
    Except PatchError DataChunk :=
  if length > 2 ^ 32 - 1 then .error .lengthOverflow
  else if 2 ^ 32 - 1 < sourcePosition ∧ sourcePosition ≠ SIZE_MAX then
    .error .lengthOverflow
  else .ok { length := length % 2 ^ 32, sourcePosition := sourcePosition % 2 ^ 32,
             data := data }

/-- Embedding of struct PatchData.  The two filesystem paths are
modelled as their UTF-8 byte sequences, which is how the codec carries
them. -/
structure PatchData where
  version : Int
  oldFileName : List Nat
  newFileName : List Nat
  escapeData : EscapeData
  dataChunks : List DataChunk
deriving DecidableEq, Repr

/-- latestPatchDataVersion. -/
def latestPatchDataVersion : Int := 1000

/-- The UTF-8 bytes of the patch file header string literal (a Chinese
sentence; 40 bytes). -/
def patchFileHeader : List Nat :=
  [231, 186, 162, 232, 173, 166, 51, 229, 144, 167, 232, 163, 133, 231, 148, 178,
   229, 134, 178, 229, 135, 187, 230, 155, 180, 230, 150, 176, 230, 143, 143, 232,
   191, 176, 230, 150, 135, 228, 187, 182]

/-- The CRLF delimiter. -/
def delimiter : List Nat := [13, 10]

/-- ASCII-decimal rendering of a natural number, most significant digit
first, as produced by formatted stream output. -/
def toDecimal (n : Nat) : List Nat :=
  if h : n < 10 then [48 + n]
  else toDecimal (n / 10) ++ [48 + n % 10]
termination_by n
decreasing_by omega

/-- Formatted output of the int version field: a minus sign then the
digits for a negative value, the digits otherwise. -/
def intToDecimal (i : Int) : List Nat :=
  if i < 0 then 45 :: toDecimal i.natAbs else toDecimal i.toNat

/-- writeLittleEndianUInt32: the four bytes of a uint32 value, least
significant byte first. -/
def le32 (v : Nat) : List Nat :=
  [v % 256, v / 2 ^ 8 % 256, v / 2 ^ 16 % 256, v / 2 ^ 24 % 256]

/-- The bytes writeChunks emits for one chunk: the two little-endian
32-bit header words, then, for a literal chunk only (sourcePosition is
the 0xFFFFFFFF sentinel), chunk.length bytes from the data buffer (the
C++ out.write is defined only when the buffer holds at least that
many bytes, hence the take). -/
def writeChunk (c : DataChunk) : List Nat :=
  le32 c.length ++ le32 c.sourcePosition ++
    (if c.sourcePosition = 2 ^ 32 - 1 then c.data.take c.length else [])

/-- The byte stream writeChunks produces for a version-1000 patch:
magic header, version, then CRLF-delimited length-prefixed file names,
the four escape bytes in decimal, the chunk count in decimal, and the
chunk records. -/
def patchStream (p : PatchData) : List Nat :=
  patchFileHeader ++ intToDecimal p.version ++ delimiter ++
  toDecimal p.oldFileName.length ++ delimiter ++ p.oldFileName ++ delimiter ++
  toDecimal p.newFileName.length ++ delimiter ++ p.newFileName ++ delimiter ++
  toDecimal p.escapeData.toBeEscaped ++ delimiter ++
  toDecimal p.escapeData.substituteCharacter ++ delimiter ++
  toDecimal p.escapeData.escape ++ delimiter ++
  toDecimal p.escapeData.escape2 ++ delimiter ++
  toDecimal p.dataChunks.length ++ delimiter ++
  (p.dataChunks.map writeChunk).flatten

/-- Embedding of writeChunks: any version other than 1000 is rejected
with the unsupported-version error (invalid_argument in the source);
otherwise the patch byte stream is emitted. -/
def writeChunks (p : PatchData) : Except PatchError (List Nat) :=
  if p.version ≠ 1000 then .error .unsupportedVersion else .ok (patchStream p)

/-- Sequencing of parsing steps: propagate an error, otherwise feed the
parsed value and the remaining stream to the continuation. -/
def pstep {α β : Type} (r : Except PatchError (α × List Nat))
    (f : α → List Nat → Except PatchError β) : Except PatchError β :=
  match r with
  | .error err => .error err
  | .ok (a, s) => f a s

/-- The checkHeader lambda of readChunks: read one byte per expected
byte and compare; a mismatch throws invalid_argument, and end of input
makes in.get() set failbit, which throws a stream failure. -/
def checkHeader (check : List Nat) (s : List Nat) : Except PatchError (Unit × List Nat) :=
  match check, s with
  | [], rest => .ok ((), rest)
  | _ :: _, [] => .error .streamFailure
  | c :: cs, b :: bs => if b = c then checkHeader cs bs else .error .malformedHeader

/-- The digit-consuming loop of formatted numeric extraction:
accumulate decimal digits until the first non-digit byte. -/
def parseDigits : List Nat → Nat → Nat × List Nat
  | [], acc => (acc, [])
  | b :: rest, acc =>
    if 48 ≤ b ∧ b ≤ 57 then parseDigits rest (acc * 10 + (b - 48))
    else (acc, b :: rest)

/-- True when the stream does not continue with a decimal digit, so a
numeral parsed in front of it stops exactly there. -/
def noDigitHead : List Nat → Bool
  | [] => true
  | b :: _ => if 48 ≤ b ∧ b ≤ 57 then false else true

/-- Formatted extraction of an unsigned integer with noskipws
(in >> n): fails (failbit) when the stream is empty or does not start
with a digit, and when the parsed value exceeds the largest value of
the destination type (overflow also sets failbit).  num_get sign
handling is not modelled: the writer never emits a sign and no claim
exercises one. -/
def readNum (bound : Nat) (s : List Nat) : Except PatchError (Nat × List Nat) :=
  match s with
  | [] => .error .streamFailure
  | b :: rest =>
    if 48 ≤ b ∧ b ≤ 57 then
      match parseDigits (b :: rest) 0 with
      | (v, r) => if v > bound then .error .streamFailure else .ok (v, r)
    else .error .streamFailure

/-- Formatted extraction of the int version field: an optional minus
sign, then digits, range-checked against the 32-bit int bounds. -/
def readInt (s : List Nat) : Except PatchError (Int × List Nat) :=
  match s with
  | [] => .error .streamFailure
  | b :: rest =>
    if b = 45 then pstep (readNum (2 ^ 31) rest) fun v r => .ok (-(v : Int), r)
    else pstep (readNum (2 ^ 31 - 1) (b :: rest)) fun v r => .ok ((v : Int), r)

/-- The readSizeType lambda: formatted extraction of a size_t value. -/
def readSizeType (s : List Nat) : Except PatchError (Nat × List Nat) :=
  readNum SIZE_MAX s

/-- The readUnsignedInt8Bit lambda: formatted extraction of an
unsigned int, then a range check against 255 that throws domain_error. -/
def readUnsignedInt8Bit (s : List Nat) : Except PatchError (Nat × List Nat) :=
  pstep (readNum (2 ^ 32 - 1) s) fun v r =>
    if v > 255 then .error .domainError else .ok (v, r)

/-- in.read(buffer, n): consume exactly n bytes; a short read sets
failbit and throws. -/
def readExact (n : Nat) (s : List Nat) : Except PatchError (List Nat × List Nat) :=
  if n ≤ s.length then .ok (s.take n, s.drop n) else .error .streamFailure

/-- readLittleEndianUInt32: read four bytes (in >> on unsigned char
with noskipws) and assemble them least significant first into a uint32
value. -/
def readLittleEndianUInt32 (s : List Nat) : Except PatchError (Nat × List Nat) :=
  match s with
  | b0 :: b1 :: b2 :: b3 :: rest =>
    .ok ((b0 + b1 * 2 ^ 8 + b2 * 2 ^ 16 + b3 * 2 ^ 24) % 2 ^ 32, rest)
  | _ => .error .streamFailure

/-- The chunk-reading loop of readChunks: each iteration reads the two
little-endian header words and, for a literal chunk (sourcePosition is
the 0xFFFFFFFF sentinel), exactly length payload bytes; a reference
chunk keeps its default-constructed empty data. -/
def readChunksLoop : Nat → List Nat → Except PatchError (List DataChunk × List Nat)
  | 0, s => .ok ([], s)
  | n + 1, s =>
    pstep (readLittleEndianUInt32 s) fun len s1 =>
    pstep (readLittleEndianUInt32 s1) fun sp s2 =>
    if sp = 2 ^ 32 - 1 then
      pstep (readExact len s2) fun dat s3 =>
      pstep (readChunksLoop n s3) fun cs s4 =>
        .ok ({ length := len, sourcePosition := sp, data := dat } :: cs, s4)
    else
      pstep (readChunksLoop n s2) fun cs s4 =>
        .ok ({ length := len, sourcePosition := sp, data := [] } :: cs, s4)

/-- Everything readChunks does after the version gate: the CRLF after
the version, the two length-prefixed file names, the four escape bytes,
the chunk count and the chunks.  The PatchData being filled in was
value-initialised, so the estimatedNewSize field, which the format does
not carry, stays 0; input left over after the last chunk is ignored
(the function never looks at it). -/
def readAfterVersion (version : Int) (s : List Nat) : Except PatchError PatchData :=
  pstep (checkHeader delimiter s) fun _ s1 =>
  pstep (readSizeType s1) fun oldLen s2 =>
  pstep (checkHeader delimiter s2) fun _ s3 =>
  pstep (readExact oldLen s3) fun oldName s4 =>
  pstep (checkHeader delimiter s4) fun _ s5 =>
  pstep (readSizeType s5) fun newLen s6 =>
  pstep (checkHeader delimiter s6) fun _ s7 =>
  pstep (readExact newLen s7) fun newName s8 =>
  pstep (checkHeader delimiter s8) fun _ s9 =>
  pstep (readUnsignedInt8Bit s9) fun tbe s10 =>
  pstep (checkHeader delimiter s10) fun _ s11 =>
  pstep (readUnsignedInt8Bit s11) fun sub s12 =>
  pstep (checkHeader delimiter s12) fun _ s13 =>
  pstep (readUnsignedInt8Bit s13) fun esc s14 =>
  pstep (checkHeader delimiter s14) fun _ s15 =>
  pstep (readUnsignedInt8Bit s15) fun esc2 s16 =>
  pstep (checkHeader delimiter s16) fun _ s17 =>
  pstep (readSizeType s17) fun chunkCount s18 =>
  pstep (checkHeader delimiter s18) fun _ s19 =>
  pstep (readChunksLoop chunkCount s19) fun chunks _ =>
  .ok { version := version, oldFileName := oldName, newFileName := newName,
        escapeData := EscapeData.mk tbe sub esc esc2 0, dataChunks := chunks }

/-- Embedding of readChunks: check the magic header byte by byte,
parse the version, reject any version other than 1000 with the
unsupported-version error, then parse the rest of the stream. -/
def readChunks (input : List Nat) : Except PatchError PatchData :=
  pstep (checkHeader patchFileHeader input) fun _ s1 =>
  pstep (readInt s1) fun version s2 =>
  if version ≠ 1000 then .error .unsupportedVersion
  else readAfterVersion version s2

/-- Structural well-formedness of an in-memory patch, the premise of
the write/read round trip: supported version, escape parameters that
are bytes, name and chunk-list lengths representable in size_t, chunk
header fields representable in uint32, literal chunks carrying exactly
length bytes of data and reference chunks carrying none. -/
def WellFormedPatch (p : PatchData) : Prop :=
  p.version = 1000 ∧
  p.escapeData.toBeEscaped < 256 ∧ p.escapeData.substituteCharacter < 256 ∧
  p.escapeData.escape < 256 ∧ p.escapeData.escape2 < 256 ∧
  p.oldFileName.length < 2 ^ 64 ∧ p.newFileName.length < 2 ^ 64 ∧
  p.dataChunks.length < 2 ^ 64 ∧
  ∀ c ∈ p.dataChunks, c.length < 2 ^ 32 ∧ c.sourcePosition < 2 ^ 32 ∧
    (c.sourcePosition = 2 ^ 32 - 1 → c.data.length = c.length) ∧
    (c.sourcePosition ≠ 2 ^ 32 - 1 → c.data = [])

instance (p : PatchData) : Decidable (WellFormedPatch p) := by
  unfold WellFormedPatch
  infer_instance

/-!  Parsing lemmas: each reading primitive consumes exactly what the
writer emitted. -/

lemma pstep_ok {α β : Type} (a : α) (s : List Nat)
    (f : α → List Nat → Except PatchError β) : pstep (.ok (a, s)) f = f a s := rfl

lemma pstep_error {α β : Type} (err : PatchError)
    (f : α → List Nat → Except PatchError β) :
    pstep (α := α) (.error err) f = .error err := rfl

lemma checkHeader_append (c rest : List Nat) : checkHeader c (c ++ rest) = .ok ((), rest) := by
  induction c with
  | nil => rfl
  | cons ch cs ih => rw [List.cons_append, checkHeader, if_pos rfl, ih]

lemma checkHeader_delimiter (s : List Nat) :
    checkHeader delimiter (13 :: 10 :: s) = .ok ((), s) := rfl

lemma noDigitHead_cr (s : List Nat) : noDigitHead (13 :: s) = true := rfl

lemma toDecimal_small (n : Nat) (h : n < 10) : toDecimal n = [48 + n] := by
  rw [toDecimal, dif_pos h]

lemma toDecimal_big (n : Nat) (h : ¬ n < 10) :
    toDecimal n = toDecimal (n / 10) ++ [48 + n % 10] := by
  rw [toDecimal]
  rw [dif_neg h]

lemma toDecimal_digits (n : Nat) : ∀ b ∈ toDecimal n, 48 ≤ b ∧ b ≤ 57 := by
  induction n using Nat.strong_induction_on with
  | _ n ih =>
    by_cases h : n < 10
    · rw [toDecimal_small n h]
      intro b hb
      rw [List.mem_singleton] at hb
      omega
    · rw [toDecimal_big n h]
      intro b hb
      rw [List.mem_append] at hb
      rcases hb with hb | hb
      · exact ih (n / 10) (by omega) b hb
      · rw [List.mem_singleton] at hb
        omega

lemma toDecimal_ne_nil (n : Nat) : toDecimal n ≠ [] := by
  by_cases h : n < 10
  · rw [toDecimal_small n h]
    simp
  · rw [toDecimal_big n h]
    simp

lemma parseDigits_toDecimal (n : Nat) : ∀ acc rest,
    parseDigits (toDecimal n ++ rest) acc =
      parseDigits rest (acc * 10 ^ (toDecimal n).length + n) := by
  induction n using Nat.strong_induction_on with
  | _ n ih =>
    intro acc rest
    by_cases h : n < 10
    · rw [toDecimal_small n h, List.singleton_append, parseDigits, if_pos (by omega)]
      have harg : acc * 10 + (48 + n - 48) = acc * 10 ^ ([48 + n] : List Nat).length + n := by
        simp only [List.length_cons, List.length_nil]
        norm_num
      rw [harg]
    · rw [toDecimal_big n h, List.append_assoc, ih (n / 10) (by omega),
        List.singleton_append, parseDigits, if_pos (by omega)]
      have harg : (acc * 10 ^ (toDecimal (n / 10)).length + n / 10) * 10 + (48 + n % 10 - 48) =
          acc * 10 ^ (toDecimal (n / 10) ++ [48 + n % 10] : List Nat).length + n := by
        have hsub : 48 + n % 10 - 48 = n % 10 := by omega
        rw [hsub, List.length_append, List.length_cons, List.length_nil, pow_succ]
        calc (acc * 10 ^ (toDecimal (n / 10)).length + n / 10) * 10 + n % 10
            = acc * (10 ^ (toDecimal (n / 10)).length * 10) + (10 * (n / 10) + n % 10) := by
              ring
          _ = acc * (10 ^ (toDecimal (n / 10)).length * 10) + n := by
              rw [Nat.div_add_mod]
      rw [harg]

lemma parseDigits_noDigit (s : List Nat) (acc : Nat) (h : noDigitHead s = true) :
    parseDigits s acc = (acc, s) := by
  cases s with
  | nil => rfl
  | cons b rest =>
    rw [noDigitHead] at h
    by_cases hd : 48 ≤ b ∧ b ≤ 57
    · rw [if_pos hd] at h
      cases h
    · rw [parseDigits, if_neg hd]

lemma readNum_decimal (bound n : Nat) (hn : n ≤ bound) (rest : List Nat)
    (hrest : noDigitHead rest = true) :
    readNum bound (toDecimal n ++ rest) = .ok (n, rest) := by
  obtain ⟨b, tail, heq⟩ : ∃ b tail, toDecimal n = b :: tail := by
    cases hh : toDecimal n with
    | nil => exact absurd hh (toDecimal_ne_nil n)
    | cons b tail => exact ⟨b, tail, rfl⟩
  have hbdig : 48 ≤ b ∧ b ≤ 57 := toDecimal_digits n b (by rw [heq]; exact List.mem_cons_self b tail)
  rw [heq, List.cons_append, readNum, if_pos hbdig, ← List.cons_append, ← heq,
    parseDigits_toDecimal n 0 rest, parseDigits_noDigit rest _ hrest]
  dsimp only
  rw [if_neg (by omega)]
  norm_num

lemma readInt_decimal (n : Nat) (hn : n ≤ 2 ^ 31 - 1) (rest : List Nat)
    (hrest : noDigitHead rest = true) :
    readInt (toDecimal n ++ rest) = .ok ((n : Int), rest) := by
  obtain ⟨b, tail, heq⟩ : ∃ b tail, toDecimal n = b :: tail := by
    cases hh : toDecimal n with
    | nil => exact absurd hh (toDecimal_ne_nil n)
    | cons b tail => exact ⟨b, tail, rfl⟩
  have hbdig : 48 ≤ b ∧ b ≤ 57 := toDecimal_digits n b (by rw [heq]; exact List.mem_cons_self b tail)
  rw [heq, List.cons_append, readInt, if_neg (by omega), ← List.cons_append, ← heq,
    readNum_decimal _ n hn rest hrest, pstep_ok]

lemma readSizeType_decimal (v : Nat) (hv : v < 2 ^ 64) (rest : List Nat)
    (hrest : noDigitHead rest = true) :
    readSizeType (toDecimal v ++ rest) = .ok (v, rest) := by
  rw [readSizeType, readNum_decimal SIZE_MAX v (by unfold SIZE_MAX; omega) rest hrest]

lemma readU8_decimal (v : Nat) (hv : v < 256) (rest : List Nat)
    (hrest : noDigitHead rest = true) :
    readUnsignedInt8Bit (toDecimal v ++ rest) = .ok (v, rest) := by
  rw [readUnsignedInt8Bit, readNum_decimal (2 ^ 32 - 1) v (by omega) rest hrest,
    pstep_ok, if_neg (by omega)]

lemma readExact_exact (n : Nat) (l rest : List Nat) (h : l.length = n) :
    readExact n (l ++ rest) = .ok (l, rest) := by
  subst h
  rw [readExact, if_pos (by rw [List.length_append]; omega), List.take_left, List.drop_left]

lemma readLE32_le32 (v : Nat) (hv : v < 2 ^ 32) (rest : List Nat) :
    readLittleEndianUInt32 (le32 v ++ rest) = .ok (v, rest) := by
  rw [le32]
  simp only [List.cons_append, List.nil_append]
  rw [readLittleEndianUInt32]
  have hval : (v % 256 + v / 2 ^ 8 % 256 * 2 ^ 8 + v / 2 ^ 16 % 256 * 2 ^ 16
      + v / 2 ^ 24 % 256 * 2 ^ 24) % 2 ^ 32 = v := by omega
  rw [hval]

lemma readChunksLoop_flatten (chunks : List DataChunk)
    (hwf : ∀ c ∈ chunks, c.length < 2 ^ 32 ∧ c.sourcePosition < 2 ^ 32 ∧
      (c.sourcePosition = 2 ^ 32 - 1 → c.data.length = c.length) ∧
      (c.sourcePosition ≠ 2 ^ 32 - 1 → c.data = [])) (tail : List Nat) :
    readChunksLoop chunks.length ((chunks.map writeChunk).flatten ++ tail) =
      .ok (chunks, tail) := by
  induction chunks with
  | nil => rfl
  | cons c cs ih =>
    obtain ⟨hlen, hsp, hlit, href⟩ := hwf c (List.mem_cons_self c cs)
    have hwf2 := fun d hd => hwf d (List.mem_cons_of_mem c hd)
    rw [List.length_cons, List.map_cons, List.flatten_cons, readChunksLoop, writeChunk]
    by_cases hsent : c.sourcePosition = 2 ^ 32 - 1
    · have hdata : c.data.take c.length = c.data := by
        rw [← hlit hsent]
        exact List.take_length c.data
      rw [if_pos hsent, hdata]
      simp only [List.append_assoc]
      rw [readLE32_le32 c.length hlen, pstep_ok, readLE32_le32 c.sourcePosition hsp,
        pstep_ok, if_pos hsent, readExact_exact c.length c.data _ (hlit hsent), pstep_ok,
        ih hwf2, pstep_ok]
    · rw [if_neg hsent]
      simp only [List.append_nil, List.append_assoc]
      rw [readLE32_le32 c.length hlen, pstep_ok, readLE32_le32 c.sourcePosition hsp,
        pstep_ok, if_neg hsent, ih hwf2, pstep_ok]
      have hchunk : DataChunk.mk c.length c.sourcePosition [] = c := by
        rw [← href hsent]
      rw [hchunk]

/-- Reading back a written well-formed patch reproduces every field the
format carries; the estimatedNewSize field is not carried and comes
back as the value-initialised 0.  Any bytes following the patch are
ignored. -/
lemma readChunks_patchStream (p : PatchData) (hwf : WellFormedPatch p) (tail : List Nat) :
    readChunks (patchStream p ++ tail) =
      .ok { version := p.version, oldFileName := p.oldFileName,
            newFileName := p.newFileName,
            escapeData := EscapeData.mk p.escapeData.toBeEscaped
              p.escapeData.substituteCharacter p.escapeData.escape
              p.escapeData.escape2 0,
            dataChunks := p.dataChunks } := by
  obtain ⟨hv, ht, hs, he, he2, ho, hn, hc, hchunks⟩ := hwf
  obtain ⟨version, oldName, newName, esc, chunks⟩ := p
  obtain ⟨tbe, sub, escb, esc2b, est⟩ := esc
  dsimp only at hv ht hs he he2 ho hn hc hchunks ⊢
  subst hv
  rw [patchStream, readChunks]
  dsimp only
  rw [intToDecimal, if_neg (by norm_num)]
  have h1000 : (1000 : Int).toNat = 1000 := rfl
  rw [h1000]
  simp only [delimiter, List.append_assoc, List.cons_append, List.nil_append]
  rw [checkHeader_append, pstep_ok,
    readInt_decimal 1000 (by norm_num) _ (noDigitHead_cr _), pstep_ok,
    if_neg (by norm_num), readAfterVersion,
    checkHeader_delimiter, pstep_ok,
    readSizeType_decimal oldName.length ho _ (noDigitHead_cr _), pstep_ok,
    checkHeader_delimiter, pstep_ok,
    readExact_exact oldName.length oldName _ rfl, pstep_ok,
    checkHeader_delimiter, pstep_ok,
    readSizeType_decimal newName.length hn _ (noDigitHead_cr _), pstep_ok,
    checkHeader_delimiter, pstep_ok,
    readExact_exact newName.length newName _ rfl, pstep_ok,
    checkHeader_delimiter, pstep_ok,
    readU8_decimal tbe ht _ (noDigitHead_cr _), pstep_ok,
    checkHeader_delimiter, pstep_ok,
    readU8_decimal sub hs _ (noDigitHead_cr _), pstep_ok,
    checkHeader_delimiter, pstep_ok,
    readU8_decimal escb he _ (noDigitHead_cr _), pstep_ok,
    checkHeader_delimiter, pstep_ok,
    readU8_decimal esc2b he2 _ (noDigitHead_cr _), pstep_ok,
    checkHeader_delimiter, pstep_ok,
    readSizeType_decimal chunks.length hc _ (noDigitHead_cr _), pstep_ok,
    checkHeader_delimiter, pstep_ok,
    readChunksLoop_flatten chunks hchunks tail, pstep_ok]
  norm_num

/-!  No parsing step after the version gate can produce the
unsupported-version error. -/

lemma pstep_ne_uv {α β : Type} (r : Except PatchError (α × List Nat))
    (f : α → List Nat → Except PatchError β)
    (hr : r ≠ .error .unsupportedVersion)
    (hf : ∀ a s, f a s ≠ .error .unsupportedVersion) :
    pstep r f ≠ .error .unsupportedVersion := by
  cases r with
  | error e =>
    rw [pstep_error]
    intro h
    injection h with he
    exact hr (by rw [he])
  | ok v =>
    obtain ⟨a, s⟩ := v
    rw [pstep_ok]
    exact hf a s

lemma checkHeader_ne_uv (c : List Nat) : ∀ s : List Nat,
    checkHeader c s ≠ .error .unsupportedVersion := by
  induction c with
  | nil => intro s; simp [checkHeader]
  | cons ch cs ih =>
    intro s
    cases s with
    | nil => simp [checkHeader]
    | cons b bs =>
      rw [checkHeader]
      split
      · exact ih bs
      · simp

lemma readNum_ne_uv (bound : Nat) (s : List Nat) :
    readNum bound s ≠ .error .unsupportedVersion := by
  cases s with
  | nil => simp [readNum]
  | cons b bs =>
    rw [readNum]
    by_cases hd : 48 ≤ b ∧ b ≤ 57
    · rw [if_pos hd]
      rcases hparse : parseDigits (b :: bs) 0 with ⟨v, r⟩
      dsimp only
      split <;> simp
    · rw [if_neg hd]
      simp

lemma readInt_ne_uv (s : List Nat) : readInt s ≠ .error .unsupportedVersion := by
  cases s with
  | nil => simp [readInt]
  | cons b bs =>
    rw [readInt]
    split
    · exact pstep_ne_uv _ _ (readNum_ne_uv _ _) (fun a s => by simp)
    · exact pstep_ne_uv _ _ (readNum_ne_uv _ _) (fun a s => by simp)

lemma readSizeType_ne_uv (s : List Nat) : readSizeType s ≠ .error .unsupportedVersion :=
  readNum_ne_uv SIZE_MAX s

lemma readU8_ne_uv (s : List Nat) : readUnsignedInt8Bit s ≠ .error .unsupportedVersion := by
  rw [readUnsignedInt8Bit]
  apply pstep_ne_uv _ _ (readNum_ne_uv _ _)
  intro a r
  split <;> simp

lemma readExact_ne_uv (n : Nat) (s : List Nat) :
    readExact n s ≠ .error .unsupportedVersion := by
  rw [readExact]
  split <;> simp

lemma readLE32_ne_uv (s : List Nat) :
    readLittleEndianUInt32 s ≠ .error .unsupportedVersion := by
  rcases s with _ | ⟨b0, _ | ⟨b1, _ | ⟨b2, _ | ⟨b3, rest⟩⟩⟩⟩ <;> simp [readLittleEndianUInt32]

lemma readChunksLoop_ne_uv : ∀ (n : Nat) (s : List Nat),
    readChunksLoop n s ≠ .error .unsupportedVersion := by
  intro n
  induction n with
  | zero => intro s; simp [readChunksLoop]
  | succ n ih =>
    intro s
    rw [readChunksLoop]
    apply pstep_ne_uv _ _ (readLE32_ne_uv s)
    intro len s1
    apply pstep_ne_uv _ _ (readLE32_ne_uv s1)
    intro sp s2
    split
    · apply pstep_ne_uv _ _ (readExact_ne_uv _ _)
      intro dat s3
      apply pstep_ne_uv _ _ (ih s3)
      intro cs s4
      simp
    · apply pstep_ne_uv _ _ (ih s2)
      intro cs s4
      simp

lemma readAfterVersion_ne_uv (v : Int) (s : List Nat) :
    readAfterVersion v s ≠ .error .unsupportedVersion := by
  rw [readAfterVersion]
  apply pstep_ne_uv _ _ (checkHeader_ne_uv _ s)
  intro _ s1
  apply pstep_ne_uv _ _ (readSizeType_ne_uv s1)
  intro _ s2
  apply pstep_ne_uv _ _ (checkHeader_ne_uv _ s2)
  intro _ s3
  apply pstep_ne_uv _ _ (readExact_ne_uv _ s3)
  intro _ s4
  apply pstep_ne_uv _ _ (checkHeader_ne_uv _ s4)
  intro _ s5
  apply pstep_ne_uv _ _ (readSizeType_ne_uv s5)
  intro _ s6
  apply pstep_ne_uv _ _ (checkHeader_ne_uv _ s6)
  intro _ s7
  apply pstep_ne_uv _ _ (readExact_ne_uv _ s7)
  intro _ s8
  apply pstep_ne_uv _ _ (checkHeader_ne_uv _ s8)
  intro _ s9
  apply pstep_ne_uv _ _ (readU8_ne_uv s9)
  intro _ s10
  apply pstep_ne_uv _ _ (checkHeader_ne_uv _ s10)
  intro _ s11
  apply pstep_ne_uv _ _ (readU8_ne_uv s11)
  intro _ s12
  apply pstep_ne_uv _ _ (checkHeader_ne_uv _ s12)
  intro _ s13
  apply pstep_ne_uv _ _ (readU8_ne_uv s13)
  intro _ s14
  apply pstep_ne_uv _ _ (checkHeader_ne_uv _ s14)
  intro _ s15
  apply pstep_ne_uv _ _ (readU8_ne_uv s15)
  intro _ s16
  apply pstep_ne_uv _ _ (checkHeader_ne_uv _ s16)
  intro _ s17
  apply pstep_ne_uv _ _ (readSizeType_ne_uv s17)
  intro _ s18
  apply pstep_ne_uv _ _ (checkHeader_ne_uv _ s18)
  intro _ s19
  apply pstep_ne_uv _ _ (readChunksLoop_ne_uv _ s19)
  intro _ s20
  simp

lemma checkHeader_mismatch : ∀ (c s : List Nat), c.length ≤ s.length →
    s.take c.length ≠ c → checkHeader c s = .error .malformedHeader := by
  intro c
  induction c with
  | nil =>
    intro s _ hne
    simp at hne
  | cons ch cs ih =>
    intro s hlen hne
    cases s with
    | nil => simp at hlen
    | cons b bs =>
      rw [checkHeader]
      by_cases hb : b = ch
      · rw [if_pos hb]
        apply ih bs (by simpa using hlen)
        intro htake
        apply hne
        rw [List.length_cons, List.take_succ_cons, htake, hb]
      · rw [if_neg hb]

/-!  Claims about the patch codec. -/

/-- A concrete well-formed patch with one literal and one reference
chunk, used as input for witnesses and counterexamples. -/
def examplePatch : PatchData :=
  { version := 1000, oldFileName := [97, 46, 98], newFileName := [99],
    escapeData := EscapeData.mk 0 4 5 6 0,
    dataChunks := [DataChunk.mk 3 (2 ^ 32 - 1) [7, 8, 9], DataChunk.mk 10 20 []] }

/-- The same patch with a nonzero estimatedNewSize, which the format
does not carry. -/
def examplePatchEst : PatchData :=
  { version := 1000, oldFileName := [97, 46, 98], newFileName := [99],
    escapeData := EscapeData.mk 0 4 5 6 12,
    dataChunks := [DataChunk.mk 3 (2 ^ 32 - 1) [7, 8, 9], DataChunk.mk 10 20 []] }

/-- Claim C2 counterexample: reading back a written well-formed patch
whose escapeData.estimatedNewSize is nonzero does not reproduce it:
the estimate is not serialized, and readChunks leaves it at the
value-initialised 0, so the result differs structurally from the
input even though the input satisfies the claimed premise (version
1000, literal chunk with exactly length data bytes, reference chunk
with empty data, 32-bit lengths). -/
theorem write_read_roundtrip_failure :
    writeChunks examplePatchEst = .ok (patchStream examplePatchEst) ∧
    readChunks (patchStream examplePatchEst) = .ok examplePatch ∧
    examplePatch ≠ examplePatchEst := by
  refine ⟨?_, ?_, by decide⟩
  · rw [writeChunks, if_neg (by norm_num [examplePatchEst])]
  · have h := readChunks_patchStream examplePatchEst (by decide) []
    rw [List.append_nil] at h
    rw [h]
    rfl

/-- Claim C2 as amended: for a well-formed patch whose
escapeData.estimatedNewSize is 0 (the value the reader always
produces, since the format does not carry the estimate), writing and
reading back reproduces the patch structurally. -/
theorem write_read_roundtrip (p : PatchData) (hwf : WellFormedPatch p)
    (hest : p.escapeData.estimatedNewSize = 0) :
    writeChunks p = .ok (patchStream p) ∧ readChunks (patchStream p) = .ok p := by
  constructor
  · rw [writeChunks, if_neg (by rw [hwf.1]; norm_num)]
  · have h := readChunks_patchStream p hwf []
    rw [List.append_nil] at h
    rw [h]
    obtain ⟨version, oldName, newName, esc, chunks⟩ := p
    obtain ⟨tbe, sub, escb, esc2b, est⟩ := esc
    dsimp only at hest
    subst hest
    rfl

/-- Witness for the amended C2 at a concrete patch with one literal and
one reference chunk. -/
theorem write_read_roundtrip_witness :
    writeChunks examplePatch = .ok (patchStream examplePatch) ∧
    readChunks (patchStream examplePatch) = .ok examplePatch :=
  write_read_roundtrip examplePatch (by decide) (by decide)

/-- Claim C7: on a stream that begins with the exact magic bytes
followed by an ASCII-decimal version number, readChunks fails with the
unsupported-version error exactly when that number is not 1000 (the
version gate precedes every later field, none of which can produce
that error); and a stream whose initial bytes do not match the magic
fails with the malformed-header error before the version is examined. -/
theorem readChunks_version_gate (v : Nat) (rest : List Nat)
    (hv : v ≤ 2 ^ 31 - 1) (hrest : noDigitHead rest = true) :
    (readChunks (patchFileHeader ++ (toDecimal v ++ rest)) = .error .unsupportedVersion
      ↔ v ≠ 1000) ∧
    (∀ s : List Nat, patchFileHeader.length ≤ s.length →
      s.take patchFileHeader.length ≠ patchFileHeader →
      readChunks s = .error .malformedHeader) := by
  constructor
  · rw [readChunks, checkHeader_append, pstep_ok, readInt_decimal v hv rest hrest, pstep_ok]
    by_cases hv1000 : v = 1000
    · subst hv1000
      rw [if_neg (by norm_num)]
      constructor
      · intro h
        exact absurd h (readAfterVersion_ne_uv _ _)
      · intro h
        exact absurd rfl h
    · rw [if_pos (by exact_mod_cast hv1000)]
      exact ⟨fun _ => hv1000, fun _ => rfl⟩
  · intro s hlen hne
    rw [readChunks, checkHeader_mismatch patchFileHeader s hlen hne, pstep_error]

/-- Witness for C7: correct magic with version 999 yields the
unsupported-version error. -/
theorem readChunks_version_gate_witness :
    readChunks (patchFileHeader ++ (toDecimal 999 ++ [13, 10])) =
      .error .unsupportedVersion :=
  ((readChunks_version_gate 999 [13, 10] (by norm_num) rfl).1).mpr (by norm_num)

/-- Claim C8 counterexample: readChunks performs no end-of-stream
check.  A well-formed patch stream followed by one byte of trailing
garbage is read successfully (returning the same patch) instead of
failing with an error. -/
theorem readChunks_trailing_garbage_no_error :
    readChunks (patchStream examplePatch ++ [0]) = .ok examplePatch := by
  rw [readChunks_patchStream examplePatch (by decide) [0]]
  rfl

/-- Claim C8 as amended: readChunks never looks at the stream past the
last chunk, so a well-formed patch (with the estimate field 0, as the
reader produces it) followed by arbitrary trailing bytes parses
successfully to the same patch; trailing garbage is not an error. -/
theorem readChunks_ignores_trailing_garbage (p : PatchData) (g : List Nat)
    (hwf : WellFormedPatch p) (hest : p.escapeData.estimatedNewSize = 0) :
    readChunks (patchStream p ++ g) = .ok p := by
  rw [readChunks_patchStream p hwf g]
  obtain ⟨version, oldName, newName, esc, chunks⟩ := p
  obtain ⟨tbe, sub, escb, esc2b, est⟩ := esc
  dsimp only at hest
  subst hest
  rfl

/-- Witness for the amended C8 at a concrete patch and garbage byte. -/
theorem readChunks_ignores_trailing_garbage_witness :
    readChunks (patchStream examplePatch ++ [65]) = .ok examplePatch :=
  readChunks_ignores_trailing_garbage examplePatch [65] (by decide) (by decide)

/-- Claim C9: the DataChunk constructor fails with the length-overflow
error exactly when the length exceeds 2^32 - 1, or the sourcePosition
exceeds 2^32 - 1 while not being the size_t sentinel -1; otherwise it
stores both values truncated to 32 bits (so the sentinel is stored as
0xFFFFFFFF). -/
theorem mkDataChunk_spec (len sp : Nat) (data : List Nat) :
    (mkDataChunk len sp data = .error .lengthOverflow ↔
      (2 ^ 32 - 1 < len ∨ (2 ^ 32 - 1 < sp ∧ sp ≠ SIZE_MAX))) ∧
    (len ≤ 2 ^ 32 - 1 → sp ≤ 2 ^ 32 - 1 →
      mkDataChunk len sp data = .ok (DataChunk.mk len sp data)) ∧
    (len ≤ 2 ^ 32 - 1 → sp = SIZE_MAX →
      mkDataChunk len sp data = .ok (DataChunk.mk len (2 ^ 32 - 1) data)) := by
  refine ⟨?_, ?_, ?_⟩
  · rw [mkDataChunk]
    by_cases h1 : len > 2 ^ 32 - 1
    · rw [if_pos h1]
      exact ⟨fun _ => Or.inl h1, fun _ => rfl⟩
    · rw [if_neg h1]
      by_cases h2 : 2 ^ 32 - 1 < sp ∧ sp ≠ SIZE_MAX
      · rw [if_pos h2]
        exact ⟨fun _ => Or.inr h2, fun _ => rfl⟩
      · rw [if_neg h2]
        constructor
        · intro h
          exact Except.noConfusion h
        · intro h
          rcases h with h | h
          · exact absurd h h1
          · exact absurd h h2
  · intro hl hsp
    rw [mkDataChunk, if_neg (by omega), if_neg (fun h => absurd h.1 (by omega))]
    have e1 : len % 2 ^ 32 = len := Nat.mod_eq_of_lt (by omega)
    have e2 : sp % 2 ^ 32 = sp := Nat.mod_eq_of_lt (by omega)
    rw [e1, e2]
  · intro hl hsp
    subst hsp
    rw [mkDataChunk, if_neg (by omega), if_neg (fun h => h.2 rfl)]
    have e1 : len % 2 ^ 32 = len := Nat.mod_eq_of_lt (by omega)
    have e2 : SIZE_MAX % 2 ^ 32 = 2 ^ 32 - 1 := by decide
    rw [e1, e2]

/-- Witness for C9: a sourcePosition equal to the size_t sentinel is
accepted and stored as 0xFFFFFFFF. -/
theorem mkDataChunk_spec_witness :
    mkDataChunk 5 SIZE_MAX [1, 2] = .ok (DataChunk.mk 5 (2 ^ 32 - 1) [1, 2]) :=
  (mkDataChunk_spec 5 SIZE_MAX [1, 2]).2.2 (by norm_num) rfl
